import Mathlib

/-!
# Verification of the arxiv-assistant research pipeline

Shallow embedding of the core of the `arxiv-assistant` repository:
the linear rescale utility (`src/utils.py`), the research pipeline
`arxiv_research_tool` (`src/agents.py`) and the conversation graph
(`src/graph.py`).  External services (language model, embedding API,
arXiv index) are parameters (`Oracles`); the concurrent worker pools of
the pipeline are modelled sequentially, with task completion in
submission order.  Python floats are embedded as rationals, fallible
calls as `Except`.
-/

open scoped List

/-! ## Data model (src/models.py) -/

/-- `PaperEvaluation` pydantic model: relevance score plus rationale. -/
structure PaperEvaluation where
  score : ℚ
  rationale : String
deriving DecidableEq

/-- `Paper` pydantic model: arXiv paper metadata tagged with the topic
that produced it. -/
structure Paper where
  topic : String
  title : String
  summary : String
  url : String
  published : String
deriving DecidableEq

/-- `EvaluatedPaper(Paper)`: a paper plus its evaluation. -/
structure EvaluatedPaper where
  topic : String
  title : String
  summary : String
  url : String
  published : String
  evaluation : PaperEvaluation
deriving DecidableEq

/-- `EvaluatedPaper(**paper.model_dump(), evaluation=eval_model)`. -/
def mkEvaluatedPaper (p : Paper) (e : PaperEvaluation) : EvaluatedPaper :=
  { topic := p.topic, title := p.title, summary := p.summary, url := p.url,
    published := p.published, evaluation := e }

/-- The underlying `Paper` of an `EvaluatedPaper` (drop the evaluation). -/
def EvaluatedPaper.paper (ep : EvaluatedPaper) : Paper :=
  { topic := ep.topic, title := ep.title, summary := ep.summary, url := ep.url,
    published := ep.published }

/-- `ResearchTopics` pydantic model. -/
structure ResearchTopics where
  user_query : String
  topics : List String
deriving DecidableEq

/-- `ResearchContext` TypedDict: the translated topics plus a
topic-keyed mapping of evaluated papers.  Python dicts are
insertion-ordered, so the mapping is an association list. -/
structure ResearchContext where
  research_topics : ResearchTopics
  papers : List (String × List EvaluatedPaper)
deriving DecidableEq

/-- `TranslationResult` pydantic model. -/
structure TranslationResult where
  source_lang : String
  target_lang : String
  text : String
  translation : String
deriving DecidableEq

/-- Failures of the leaf utilities: the distinct `ValueError` raise
sites of `from_scale_to_scale` plus failures of external services
(network, model, index), which carry a message. -/
inductive UtilError where
  | badScaleLength
  | degenerateLScale
  | degenerateRScale
  | valueOutOfScale (value : ℚ)
  | externalFailure (msg : String)
deriving DecidableEq

/-! ## The rescale utility (src/utils.py, `from_scale_to_scale`) -/

/-- `from_scale_to_scale(value, l_scale, r_scale)` from `src/utils.py`:
validates that both scales have exactly two elements, that neither is
degenerate and that `value` lies within `l_scale`, then rescales
linearly.  Each `raise ValueError` becomes an `Except.error`. -/
def from_scale_to_scale (value : ℚ) (l_scale r_scale : List ℚ) : Except UtilError ℚ :=
  match l_scale, r_scale with
  | [l_min, l_max], [r_min, r_max] =>
    if l_min = l_max then .error .degenerateLScale
    else if r_min = r_max then .error .degenerateRScale
    else if ¬ (l_min ≤ value ∧ value ≤ l_max) then .error (.valueOutOfScale value)
    else .ok (((value - l_min) * (r_max - r_min)) / (l_max - l_min) + r_min)
  | _, _ => .error .badScaleLength

/-- The linear map applied by `from_scale_to_scale` on valid input. -/
def rescaleMap (l_min l_max r_min r_max x : ℚ) : ℚ :=
  ((x - l_min) * (r_max - r_min)) / (l_max - l_min) + r_min

/-! ## Claims C8 and C9: the rescale utility -/

/-- C8: `from_scale_to_scale` fails exactly when the source interval is
degenerate, the target interval is degenerate, or the value lies outside
the source interval; on all other inputs it returns normally. -/
theorem c8_rescale_error_iff (value l_min l_max r_min r_max : ℚ) :
    (from_scale_to_scale value [l_min, l_max] [r_min, r_max]).isOk = false ↔
      l_min = l_max ∨ r_min = r_max ∨ ¬ (l_min ≤ value ∧ value ≤ l_max) := by
  simp only [from_scale_to_scale]
  split_ifs <;> simp [Except.isOk, Except.toBool, *]

/-- C9: on non-degenerate intervals with the value inside the source
interval, `from_scale_to_scale` succeeds and computes an affine,
strictly monotonic map, and rescaling back through the swapped intervals
returns the original value exactly (over rational arithmetic). -/
theorem c9_rescale_affine_monotone_roundtrip (x l_min l_max r_min r_max : ℚ)
    (hl : l_min < l_max) (hr : r_min < r_max) (hx1 : l_min ≤ x) (hx2 : x ≤ l_max) :
    from_scale_to_scale x [l_min, l_max] [r_min, r_max]
        = .ok (rescaleMap l_min l_max r_min r_max x) ∧
      (∃ a b : ℚ, 0 < a ∧ ∀ z : ℚ, rescaleMap l_min l_max r_min r_max z = a * z + b) ∧
      (∀ z w : ℚ, z < w →
        rescaleMap l_min l_max r_min r_max z < rescaleMap l_min l_max r_min r_max w) ∧
      from_scale_to_scale (rescaleMap l_min l_max r_min r_max x) [r_min, r_max] [l_min, l_max]
        = .ok x := by
  have hlne : l_max - l_min ≠ 0 := by linarith
  have hrne : r_max - r_min ≠ 0 := by linarith
  have hlpos : (0 : ℚ) < l_max - l_min := by linarith
  have hrpos : (0 : ℚ) < r_max - r_min := by linarith
  have ha : (0 : ℚ) < (r_max - r_min) / (l_max - l_min) := div_pos hrpos hlpos
  have haff : ∀ z : ℚ, rescaleMap l_min l_max r_min r_max z
      = ((r_max - r_min) / (l_max - l_min)) * z
        + (r_min - l_min * ((r_max - r_min) / (l_max - l_min))) := by
    intro z
    unfold rescaleMap
    field_simp
    ring
  have hmono : ∀ z w : ℚ, z < w →
      rescaleMap l_min l_max r_min r_max z < rescaleMap l_min l_max r_min r_max w := by
    intro z w hzw
    rw [haff z, haff w]
    have := mul_lt_mul_of_pos_left hzw ha
    linarith
  have hylo : r_min ≤ rescaleMap l_min l_max r_min r_max x := by
    unfold rescaleMap
    have : 0 ≤ ((x - l_min) * (r_max - r_min)) / (l_max - l_min) :=
      div_nonneg (mul_nonneg (by linarith) (by linarith)) (by linarith)
    linarith
  have hyhi : rescaleMap l_min l_max r_min r_max x ≤ r_max := by
    unfold rescaleMap
    have hle : ((x - l_min) * (r_max - r_min)) / (l_max - l_min) ≤ r_max - r_min := by
      rw [div_le_iff₀ hlpos]
      nlinarith
    linarith
  refine ⟨?_, ⟨_, _, ha, haff⟩, hmono, ?_⟩
  · simp only [from_scale_to_scale]
    rw [if_neg (by intro h; exact absurd h (ne_of_lt hl)),
      if_neg (by intro h; exact absurd h (ne_of_lt hr)),
      if_neg (by push_neg; exact ⟨hx1, hx2⟩)]
    rfl
  · simp only [from_scale_to_scale]
    rw [if_neg (by intro h; exact absurd h (ne_of_lt hr)),
      if_neg (by intro h; exact absurd h (ne_of_lt hl)),
      if_neg (by push_neg; exact ⟨hylo, hyhi⟩)]
    congr 1
    unfold rescaleMap
    field_simp
    ring

/-- Witness for C9 at a concrete input: rescaling 1 from [0, 2]
to [10, 20]. -/
theorem c9_witness :
    from_scale_to_scale 1 [0, 2] [10, 20] = .ok (rescaleMap 0 2 10 20 1) ∧
      (∃ a b : ℚ, 0 < a ∧ ∀ z : ℚ, rescaleMap 0 2 10 20 z = a * z + b) ∧
      (∀ z w : ℚ, z < w → rescaleMap 0 2 10 20 z < rescaleMap 0 2 10 20 w) ∧
      from_scale_to_scale (rescaleMap 0 2 10 20 1) [10, 20] [0, 2] = .ok 1 :=
  c9_rescale_affine_monotone_roundtrip 1 0 2 10 20 (by norm_num) (by norm_num)
    (by norm_num) (by norm_num)

/-! ## External services

The language model, the embedding API and the arXiv index are external
collaborators; the pipeline is parametrised by them. -/

/-- One raw result from the arXiv index (`arxiv.Client().results`),
already rendered: `published` is the `strftime`-formatted date. -/
structure ArxivEntry where
  title : String
  summary : String
  entry_id : String
  published : String
deriving DecidableEq

/-- The external services used by the pipeline: `translate_sync` (topic
translation via the translation agent), the arXiv search, the
embedding-plus-cosine similarity of two texts, and the chat-completion
rationale.  Each may fail. -/
structure Oracles where
  translate : String → Except UtilError TranslationResult
  search : String → Nat → Except UtilError (List ArxivEntry)
  similarity : String → String → Except UtilError ℚ
  rationaleFor : String → String → String → Except UtilError String

/-! ## Retrieval and evaluation (src/utils.py) -/

/-- `retrieve_arxiv_papers(topic, max_results=5)`: query the index with
an exact-phrase search over the topic and tag every returned paper with
that topic. -/
def retrieve_arxiv_papers (o : Oracles) (topic : String) (max_results : Nat := 5) :
    Except UtilError (List Paper) :=
  (o.search ("all:\"" ++ topic ++ "\"") max_results).map (List.map fun r =>
    { topic := topic, title := r.title, summary := r.summary, url := r.entry_id,
      published := r.published })

/-- `get_scaled_similarity`: cosine similarity of the embeddings,
rescaled from [-1, 1] to [0, 1] by `from_scale_to_scale`. -/
def get_scaled_similarity (o : Oracles) (l_query r_query : String) : Except UtilError ℚ := do
  let similarity ← o.similarity l_query r_query
  from_scale_to_scale similarity [-1, 1] [0, 1]

/-- `explain_paper_relevance(query, paper)`: scaled embedding similarity
of the query and `title + "\n" + summary`, plus an LLM rationale. -/
def explain_paper_relevance (o : Oracles) (query : String) (paper : Paper) :
    Except UtilError PaperEvaluation := do
  let paper_string := paper.title ++ "\n" ++ paper.summary
  let scaled_similarity ← get_scaled_similarity o query paper_string
  let rationale ← o.rationaleFor query paper.title paper.summary
  return { score := scaled_similarity, rationale := rationale }

/-! ## The research pipeline (src/agents.py, `arxiv_research_tool`)

The concurrent worker pools are modelled sequentially: tasks complete in
submission order.  Python dicts are insertion-ordered association
lists. -/

/-- Errors escaping the pipeline or the graph nodes:
`TranslationError`, a `KeyError` from the tool registry, and the
`IndexError` of reading the last message of an empty history. -/
inductive PipelineError where
  | translationError (msg : String)
  | keyError (name : String)
  | indexError
deriving DecidableEq

/-- The translation stage: translate every topic; the first failure
raises `TranslationError` naming the untranslated input text. -/
def translateTopics (o : Oracles) : List String → Except PipelineError (List String)
  | [] => .ok []
  | t :: ts =>
    match o.translate t with
    | .error _ => .error (.translationError ("Failed to translate: " ++ t))
    | .ok r =>
      match translateTopics o ts with
      | .error e => .error e
      | .ok rest => .ok (r.translation :: rest)

/-- `d[k] = v` on an insertion-ordered dict: overwrite in place, or
append a new entry. -/
def dictInsert {α : Type} (m : List (String × α)) (k : String) (v : α) :
    List (String × α) :=
  match m with
  | [] => [(k, v)]
  | (k', v') :: rest => if k' = k then (k, v) :: rest else (k', v') :: dictInsert rest k v

/-- `d[k]` on an association list. -/
def lookupKey {α : Type} (k : String) : List (String × α) → Option α
  | [] => none
  | (k', v) :: rest => if k' = k then some v else lookupKey k rest

/-- One retrieval task with its `try`/`except`: a failing topic
contributes an empty paper list. -/
def retrieveOne (o : Oracles) (topic : String) : List Paper :=
  match retrieve_arxiv_papers o topic 5 with
  | .ok papers => papers
  | .error _ => []

/-- Stage 2: `raw_papers_per_topic`, one retrieval per translated
topic. -/
def retrieveStage (o : Oracles) (topics : List String) : List (String × List Paper) :=
  topics.foldl (fun m topic => dictInsert m topic (retrieveOne o topic)) []

/-- One evaluation task with its `try`/`except`: a failing evaluation is
dropped (`None`). -/
def evalOne (o : Oracles) (user_query : String) (p : Paper) : Option EvaluatedPaper :=
  match explain_paper_relevance o user_query p with
  | .ok e => some (mkEvaluatedPaper p e)
  | .error _ => none

/-- All papers of stage 2 in submission order (per topic, in retrieval
order). -/
def allPapers (raw : List (String × List Paper)) : List Paper :=
  (raw.map Prod.snd).flatten

/-- Stage 3: evaluate every retrieved paper; failures are skipped. -/
def evalStage (o : Oracles) (user_query : String) (raw : List (String × List Paper)) :
    List EvaluatedPaper :=
  (allPapers raw).filterMap (evalOne o user_query)

/-- `ctx['papers'].setdefault(ep.topic, []).append(ep)`. -/
def appendAt (m : List (String × List EvaluatedPaper)) (k : String) (ep : EvaluatedPaper) :
    List (String × List EvaluatedPaper) :=
  match m with
  | [] => [(k, [ep])]
  | (k', l) :: rest =>
    if k' = k then (k', l ++ [ep]) :: rest else (k', l) :: appendAt rest k ep

/-- Stage 4a: group the surviving evaluated papers by topic, in arrival
order. -/
def groupPapers (eps : List EvaluatedPaper) : List (String × List EvaluatedPaper) :=
  eps.foldl (fun m ep => appendAt m ep.topic ep) []

/-- The sort relation of `papers.sort(key=lambda p: p.evaluation.score,
reverse=True)`: scores descending. -/
def scoreGe (a b : EvaluatedPaper) : Prop :=
  b.evaluation.score ≤ a.evaluation.score

instance : DecidableRel scoreGe :=
  fun a b => inferInstanceAs (Decidable (b.evaluation.score ≤ a.evaluation.score))

instance : IsTotal EvaluatedPaper scoreGe :=
  ⟨fun a b => le_total b.evaluation.score a.evaluation.score⟩

instance : IsTrans EvaluatedPaper scoreGe :=
  ⟨fun _ _ _ h1 h2 => le_trans h2 h1⟩

/-- Stage 4b: Python's stable in-place sort, by score descending. -/
def sortByScoreDesc (l : List EvaluatedPaper) : List EvaluatedPaper :=
  l.insertionSort scoreGe

/-- Stages 2-4 of the pipeline: retrieve, evaluate, group and sort. -/
def pipelinePapers (o : Oracles) (user_query : String) (translated_topics : List String) :
    List (String × List EvaluatedPaper) :=
  (groupPapers (evalStage o user_query (retrieveStage o translated_topics))).map
    (fun kl => (kl.1, sortByScoreDesc kl.2))

/-- `arxiv_research_tool(research_topics)`: translate all topics (any
failure raises `TranslationError`), then retrieve, evaluate and
aggregate.  The returned context carries the translated topics, as the
source mutates `research_topics.topics` in place. -/
def arxiv_research_tool (o : Oracles) (research_topics : ResearchTopics) :
    Except PipelineError ResearchContext :=
  match translateTopics o research_topics.topics with
  | .error e => .error e
  | .ok translated_topics =>
    .ok { research_topics := { user_query := research_topics.user_query,
                               topics := translated_topics },
          papers := pipelinePapers o research_topics.user_query translated_topics }

/-! ## The conversation graph (src/graph.py) -/

/-- One tool call requested by the chat model. -/
structure ToolCall where
  name : String
  args : ResearchTopics
  id : String
deriving DecidableEq

/-- A conversation message; `tool_calls` is empty for plain messages. -/
structure Message where
  content : String
  tool_calls : List ToolCall
deriving DecidableEq

/-- `MessagesState`: the conversation history. -/
structure MessagesState where
  messages : List Message
deriving DecidableEq

/-- The nodes of the compiled graph: `START`, `chatbot`,
`research_pool` and `END`. -/
inductive GraphNode where
  | start
  | chatbot
  | research_pool
  | terminal
deriving DecidableEq

/-- `should_research(state)`: route to `research_pool` when the last
message carries tool calls, otherwise to `END`.  `none` models the
`IndexError` of `state["messages"][-1]` on an empty history. -/
def should_research (state : MessagesState) : Option GraphNode :=
  state.messages.getLast?.map fun last_message =>
    if last_message.tool_calls ≠ [] then .research_pool else .terminal

/-- The edges added by `build_research_graph`: `START → chatbot`,
conditional edges from `chatbot` via `should_research`, and
`research_pool → chatbot`.  `END` has no outgoing edge. -/
def graphStep (node : GraphNode) (state : MessagesState) : Option GraphNode :=
  match node with
  | .start => some .chatbot
  | .chatbot => should_research state
  | .research_pool => some .chatbot
  | .terminal => none

/-- A tool-result message (`ToolMessage(content=observation,
tool_call_id=...)`); its content is the tool's observation. -/
structure ToolMessage where
  content : ResearchContext
  tool_call_id : String
deriving DecidableEq

/-- `research_tools_by_name[tool_call["name"]].invoke(...)`: only the
research tool is registered; an unknown name raises `KeyError`. -/
def invokeToolCall (o : Oracles) (tc : ToolCall) : Except PipelineError ResearchContext :=
  if tc.name = "arxiv_research_tool" then arxiv_research_tool o tc.args
  else .error (.keyError tc.name)

/-- The `for tool_call in ...` loop of `research_pool_node`: invoke each
call in order, collecting one tool-result message per call; the first
failing invocation propagates. -/
def invokeToolCalls (o : Oracles) : List ToolCall → Except PipelineError (List ToolMessage)
  | [] => .ok []
  | tc :: tcs =>
    match invokeToolCall o tc with
    | .error e => .error e
    | .ok observation =>
      match invokeToolCalls o tcs with
      | .error e => .error e
      | .ok rest => .ok ({ content := observation, tool_call_id := tc.id } :: rest)

/-- `research_pool_node(state)`: invoke every tool call of the last
message, in order, producing one tool-result message per call.  There is
no exception handling around `tool.invoke`, so the first failing call
propagates out of the node. -/
def research_pool_node (o : Oracles) (state : MessagesState) :
    Except PipelineError (List ToolMessage) :=
  match state.messages.getLast? with
  | none => .error .indexError
  | some last_message => invokeToolCalls o last_message.tool_calls

/-! ## Lemmas about the translation stage -/

/-- If any topic fails to translate, the translation stage raises
`TranslationError`. -/
theorem translateTopics_error_of_mem (o : Oracles) (t : String) :
    ∀ ts : List String, t ∈ ts → (∃ e, o.translate t = .error e) →
      ∃ msg, translateTopics o ts = .error (.translationError msg)
  | [], ht, _ => absurd ht (List.not_mem_nil t)
  | t' :: ts, ht, hfail => by
    rcases hfail with ⟨e, he⟩
    rcases List.mem_cons.mp ht with rfl | hmem
    · exact ⟨"Failed to translate: " ++ t, by simp [translateTopics, he]⟩
    · cases htr : o.translate t' with
      | error _ => exact ⟨"Failed to translate: " ++ t', by simp [translateTopics, htr]⟩
      | ok r =>
        rcases translateTopics_error_of_mem o t ts hmem ⟨e, he⟩ with ⟨msg, hmsg⟩
        exact ⟨msg, by simp [translateTopics, htr, hmsg]⟩

/-- When the translation stage succeeds, the pipeline returns the
context built from the translated topics. -/
theorem arxiv_research_tool_ok (o : Oracles) (rt : ResearchTopics) (ts : List String)
    (hts : translateTopics o rt.topics = .ok ts) :
    arxiv_research_tool o rt
      = .ok { research_topics := { user_query := rt.user_query, topics := ts },
              papers := pipelinePapers o rt.user_query ts } := by
  simp [arxiv_research_tool, hts]

/-! ## Lemmas about dicts and the retrieval stage -/

theorem lookupKey_dictInsert {α : Type} (k j : String) (v : α) :
    ∀ m : List (String × α),
      lookupKey j (dictInsert m k v) = if k = j then some v else lookupKey j m
  | [] => by simp [dictInsert, lookupKey]
  | (k', v') :: rest => by
    by_cases hk : k' = k
    · subst hk
      by_cases hj : k' = j <;> simp [dictInsert, lookupKey, hj]
    · by_cases hj : k' = j
      · subst hj
        have hkj : ¬ k = k' := fun h => hk h.symm
        simp [dictInsert, lookupKey, hk, hkj]
      · simp [dictInsert, lookupKey, hk, hj, lookupKey_dictInsert k j v rest]

theorem mem_dictInsert {α : Type} (kl : String × α) (k : String) (v : α) :
    ∀ m : List (String × α), kl ∈ dictInsert m k v → kl = (k, v) ∨ kl ∈ m
  | [], h => by
    simp only [dictInsert, List.mem_singleton] at h
    exact Or.inl h
  | (k', v') :: rest, h => by
    unfold dictInsert at h
    by_cases hk : k' = k
    · rw [if_pos hk] at h
      rcases List.mem_cons.mp h with h1 | h2
      · exact Or.inl h1
      · exact Or.inr (List.mem_cons.mpr (Or.inr h2))
    · rw [if_neg hk] at h
      rcases List.mem_cons.mp h with h1 | h2
      · exact Or.inr (List.mem_cons.mpr (Or.inl h1))
      · rcases mem_dictInsert kl k v rest h2 with h3 | h3
        · exact Or.inl h3
        · exact Or.inr (List.mem_cons.mpr (Or.inr h3))

/-- The retrieval stage maps every requested topic to its retrieval
result (the empty list when retrieval failed) and holds no other
keys. -/
theorem lookupKey_retrieveStage_aux (o : Oracles) (k : String) :
    ∀ (ts : List String) (m : List (String × List Paper)),
      lookupKey k (ts.foldl (fun m' topic => dictInsert m' topic (retrieveOne o topic)) m)
        = if k ∈ ts then some (retrieveOne o k) else lookupKey k m
  | [], m => by simp
  | t :: ts, m => by
    rw [List.foldl_cons, lookupKey_retrieveStage_aux o k ts, lookupKey_dictInsert]
    by_cases hts : k ∈ ts
    · simp [hts, List.mem_cons]
    · by_cases htk : t = k
      · subst htk
        simp [hts, List.mem_cons]
      · have hkt : k ∉ t :: ts :=
          fun h => (List.mem_cons.mp h).elim (fun h' => htk h'.symm) hts
        simp [hts, htk, hkt]

theorem lookupKey_retrieveStage (o : Oracles) (k : String) (ts : List String) :
    lookupKey k (retrieveStage o ts)
      = if k ∈ ts then some (retrieveOne o k) else none := by
  rw [retrieveStage, lookupKey_retrieveStage_aux o k ts []]
  rfl

/-- Every entry of the retrieval stage is a requested topic with its
retrieval result. -/
theorem mem_retrieveStage_aux (o : Oracles) :
    ∀ (ts : List String) (m : List (String × List Paper)) (kl : String × List Paper),
      kl ∈ ts.foldl (fun m' topic => dictInsert m' topic (retrieveOne o topic)) m →
      kl ∈ m ∨ (kl.1 ∈ ts ∧ kl.2 = retrieveOne o kl.1)
  | [], _, _, h => Or.inl h
  | t :: ts, m, kl, h => by
    rw [List.foldl_cons] at h
    rcases mem_retrieveStage_aux o ts (dictInsert m t (retrieveOne o t)) kl h with h' | h'
    · rcases mem_dictInsert kl t (retrieveOne o t) m h' with rfl | h''
      · exact Or.inr ⟨List.mem_cons_self _ _, rfl⟩
      · exact Or.inl h''
    · exact Or.inr ⟨List.mem_cons_of_mem _ h'.1, h'.2⟩

theorem mem_retrieveStage (o : Oracles) (ts : List String) (kl : String × List Paper)
    (h : kl ∈ retrieveStage o ts) : kl.1 ∈ ts ∧ kl.2 = retrieveOne o kl.1 :=
  (mem_retrieveStage_aux o ts [] kl h).resolve_left (List.not_mem_nil kl)

/-- Retrieved papers are tagged with the topic that produced them. -/
theorem retrieveOne_topic (o : Oracles) (t : String) :
    ∀ p ∈ retrieveOne o t, p.topic = t := by
  intro p hp
  unfold retrieveOne retrieve_arxiv_papers at hp
  cases hs : o.search ("all:\"" ++ t ++ "\"") 5 with
  | error e =>
    rw [hs] at hp
    simp [Except.map] at hp
  | ok rs =>
    rw [hs] at hp
    simp only [Except.map] at hp
    rcases List.mem_map.mp hp with ⟨r, _, rfl⟩
    rfl

/-- A topic whose index search fails retrieves no papers. -/
theorem retrieveOne_eq_nil_of_search_error (o : Oracles) (t : String) (e : UtilError)
    (hs : o.search ("all:\"" ++ t ++ "\"") 5 = .error e) :
    retrieveOne o t = [] := by
  unfold retrieveOne retrieve_arxiv_papers
  rw [hs]
  rfl

/-! ## Claim C1: translation failures are fatal -/

/-- C1: if any topic of the input fails to translate, the whole pipeline
invocation raises `TranslationError` and no `ResearchContext` is
returned. -/
theorem c1_translation_failure_fatal (o : Oracles) (rt : ResearchTopics) (t : String)
    (ht : t ∈ rt.topics) (hfail : ∃ e, o.translate t = .error e) :
    (∃ msg, arxiv_research_tool o rt = .error (.translationError msg)) ∧
      ∀ ctx, arxiv_research_tool o rt ≠ .ok ctx := by
  rcases translateTopics_error_of_mem o t rt.topics ht hfail with ⟨msg, hmsg⟩
  have htool : arxiv_research_tool o rt = .error (.translationError msg) := by
    simp [arxiv_research_tool, hmsg]
  exact ⟨⟨msg, htool⟩, fun ctx hctx => by rw [htool] at hctx; exact Except.noConfusion hctx⟩

/-- The concrete scenario for C1: one topic, a translation service that
is down. -/
def oW1 : Oracles :=
  { translate := fun _ => .error (.externalFailure "model down"),
    search := fun _ _ => .error (.externalFailure "unused"),
    similarity := fun _ _ => .error (.externalFailure "unused"),
    rationaleFor := fun _ _ _ => .error (.externalFailure "unused") }

def rtW1 : ResearchTopics := { user_query := "q", topics := ["tema"] }

/-- Witness for C1: with the translation service down, the pipeline
raises `TranslationError` on a concrete input. -/
theorem c1_witness :
    "tema" ∈ rtW1.topics ∧
      (∃ msg, arxiv_research_tool oW1 rtW1 = .error (.translationError msg)) ∧
      ∀ ctx, arxiv_research_tool oW1 rtW1 ≠ .ok ctx :=
  ⟨by simp [rtW1], c1_translation_failure_fatal oW1 rtW1 "tema" (by simp [rtW1])
    ⟨.externalFailure "model down", rfl⟩⟩

/-! ## Lemmas about the aggregation stage -/

theorem lookupKey_appendAt_self (k : String) (ep : EvaluatedPaper) :
    ∀ m, lookupKey k (appendAt m k ep) = some ((lookupKey k m).getD [] ++ [ep])
  | [] => by simp [appendAt, lookupKey]
  | (k', l) :: rest => by
    by_cases hk : k' = k
    · subst hk
      simp [appendAt, lookupKey]
    · simp [appendAt, lookupKey, hk, lookupKey_appendAt_self k ep rest]

theorem lookupKey_appendAt_ne (k j : String) (ep : EvaluatedPaper) (hkj : k ≠ j) :
    ∀ m, lookupKey j (appendAt m k ep) = lookupKey j m
  | [] => by simp [appendAt, lookupKey, hkj]
  | (k', l) :: rest => by
    by_cases hk : k' = k
    · subst hk
      simp [appendAt, lookupKey, hkj]
    · simp [appendAt, lookupKey, hk, lookupKey_appendAt_ne k j ep hkj rest]

/-- Folding the `setdefault`-append over a batch: the entry of key `k`
collects, in arrival order, exactly the papers whose topic is `k`. -/
theorem lookupKey_groupPapers_aux (k : String) :
    ∀ (eps : List EvaluatedPaper) (m : List (String × List EvaluatedPaper)),
      lookupKey k (eps.foldl (fun m' ep => appendAt m' ep.topic ep) m)
        = if lookupKey k m = none ∧ eps.filter (fun ep => ep.topic = k) = []
          then none
          else some ((lookupKey k m).getD [] ++ eps.filter (fun ep => ep.topic = k))
  | [], m => by
    cases h : lookupKey k m <;> simp [h]
  | ep :: eps, m => by
    rw [List.foldl_cons, lookupKey_groupPapers_aux k eps]
    by_cases ht : ep.topic = k
    · have h1 : lookupKey k (appendAt m ep.topic ep)
          = some ((lookupKey k m).getD [] ++ [ep]) := by
        rw [ht]
        exact lookupKey_appendAt_self k ep m
      have h2 : (ep :: eps).filter (fun x => x.topic = k)
          = ep :: eps.filter (fun x => x.topic = k) :=
        List.filter_cons_of_pos (by simp [ht])
      rw [h1, h2]
      simp
    · have h1 : lookupKey k (appendAt m ep.topic ep) = lookupKey k m :=
        lookupKey_appendAt_ne ep.topic k ep ht m
      have h2 : (ep :: eps).filter (fun x => x.topic = k)
          = eps.filter (fun x => x.topic = k) :=
        List.filter_cons_of_neg (by simp [ht])
      rw [h1, h2]

/-- The grouped mapping holds key `k` iff some surviving paper has topic
`k`, and its entry is the arrival-ordered list of those papers. -/
theorem lookupKey_groupPapers (k : String) (eps : List EvaluatedPaper) :
    lookupKey k (groupPapers eps)
      = if eps.filter (fun ep => ep.topic = k) = [] then none
        else some (eps.filter (fun ep => ep.topic = k)) := by
  rw [groupPapers, lookupKey_groupPapers_aux k eps []]
  simp [lookupKey]

theorem lookupKey_map_values {α β : Type} (f : α → β) (k : String) :
    ∀ m : List (String × α),
      lookupKey k (m.map (fun kl => (kl.1, f kl.2))) = (lookupKey k m).map f
  | [] => rfl
  | (k', v) :: rest => by
    by_cases hk : k' = k <;> simp [lookupKey, hk, lookupKey_map_values f k rest]

theorem mem_appendAt (k : String) (ep : EvaluatedPaper) :
    ∀ (m : List (String × List EvaluatedPaper)) (kl : String × List EvaluatedPaper),
      kl ∈ appendAt m k ep →
      kl ∈ m ∨ (∃ l, (kl.1, l) ∈ m ∧ kl.1 = k ∧ kl.2 = l ++ [ep]) ∨ kl = (k, [ep])
  | [], kl, h => by
    simp only [appendAt, List.mem_singleton] at h
    exact Or.inr (Or.inr h)
  | (k', l) :: rest, kl, h => by
    unfold appendAt at h
    by_cases hk : k' = k
    · rw [if_pos hk] at h
      rcases List.mem_cons.mp h with h1 | h2
      · subst h1
        exact Or.inr (Or.inl ⟨l, List.mem_cons.mpr (Or.inl rfl), hk, rfl⟩)
      · exact Or.inl (List.mem_cons.mpr (Or.inr h2))
    · rw [if_neg hk] at h
      rcases List.mem_cons.mp h with h1 | h2
      · exact Or.inl (List.mem_cons.mpr (Or.inl h1))
      · rcases mem_appendAt k ep rest kl h2 with h3 | h3 | h3
        · exact Or.inl (List.mem_cons.mpr (Or.inr h3))
        · rcases h3 with ⟨l', hl', hkl, hv⟩
          exact Or.inr (Or.inl ⟨l', List.mem_cons.mpr (Or.inr hl'), hkl, hv⟩)
        · exact Or.inr (Or.inr h3)

/-- Invariant of the grouping fold: every entry is non-empty and holds
only papers of its own topic. -/
theorem mem_groupPapers_aux :
    ∀ (eps : List EvaluatedPaper) (m : List (String × List EvaluatedPaper)),
      (∀ kl ∈ m, kl.2 ≠ [] ∧ ∀ ep ∈ kl.2, ep.topic = kl.1) →
      ∀ kl ∈ eps.foldl (fun m' ep => appendAt m' ep.topic ep) m,
        kl.2 ≠ [] ∧ ∀ ep ∈ kl.2, ep.topic = kl.1
  | [], _, hm, kl, h => hm kl h
  | ep :: eps, m, hm, kl, h => by
    rw [List.foldl_cons] at h
    refine mem_groupPapers_aux eps (appendAt m ep.topic ep) ?_ kl h
    intro kl' hkl'
    rcases mem_appendAt ep.topic ep m kl' hkl' with h1 | h1 | h1
    · exact hm kl' h1
    · rcases h1 with ⟨l, hl, hkl1, hv⟩
      refine ⟨by rw [hv]; simp, ?_⟩
      intro e he
      rw [hv] at he
      rcases List.mem_append.mp he with he1 | he1
      · exact (hm (kl'.1, l) hl).2 e he1
      · rw [List.mem_singleton.mp he1]
        exact hkl1.symm
    · rw [h1]
      exact ⟨by simp, by intro e he; rw [List.mem_singleton.mp he]⟩

/-- Every key of the grouped mapping is the topic of some surviving
paper. -/
theorem keys_groupPapers_aux :
    ∀ (eps : List EvaluatedPaper) (m : List (String × List EvaluatedPaper))
      (kl : String × List EvaluatedPaper),
      kl ∈ eps.foldl (fun m' ep => appendAt m' ep.topic ep) m →
      kl.1 ∈ m.map Prod.fst ∨ kl.1 ∈ eps.map (fun ep => ep.topic)
  | [], m, kl, h => Or.inl (List.mem_map.mpr ⟨kl, h, rfl⟩)
  | ep :: eps, m, kl, h => by
    rw [List.foldl_cons] at h
    rcases keys_groupPapers_aux eps (appendAt m ep.topic ep) kl h with h1 | h1
    · rcases List.mem_map.mp h1 with ⟨kl', hkl', hfst⟩
      rcases mem_appendAt ep.topic ep m kl' hkl' with h2 | h2 | h2
      · exact Or.inl (List.mem_map.mpr ⟨kl', h2, hfst⟩)
      · rcases h2 with ⟨l, _, hk, _⟩
        refine Or.inr (List.mem_map.mpr ⟨ep, List.mem_cons_self ep eps, ?_⟩)
        rw [← hfst, hk]
      · refine Or.inr (List.mem_map.mpr ⟨ep, List.mem_cons_self ep eps, ?_⟩)
        rw [← hfst, h2]
    · rcases List.mem_map.mp h1 with ⟨e, he, hfe⟩
      exact Or.inr (List.mem_map.mpr ⟨e, List.mem_cons_of_mem ep he, hfe⟩)

/-! ## Lemmas about the evaluation stage -/

/-- A successful evaluation preserves the paper: its topic and all
metadata fields. -/
theorem evalOne_topic (o : Oracles) (uq : String) (p : Paper) (ep : EvaluatedPaper)
    (h : evalOne o uq p = some ep) : ep.topic = p.topic ∧ ep.paper = p := by
  unfold evalOne at h
  cases he : explain_paper_relevance o uq p with
  | error e =>
    rw [he] at h
    exact Option.noConfusion h
  | ok ev =>
    rw [he] at h
    have hmk : mkEvaluatedPaper p ev = ep := Option.some.inj h
    rw [← hmk]
    exact ⟨rfl, rfl⟩

theorem mem_evalStage (o : Oracles) (uq : String) (raw : List (String × List Paper))
    (ep : EvaluatedPaper) (h : ep ∈ evalStage o uq raw) :
    ∃ p ∈ allPapers raw, evalOne o uq p = some ep := by
  unfold evalStage at h
  exact List.mem_filterMap.mp h

/-- Every paper surviving retrieval carries a topic of the request, and
belongs to that topic's retrieval result. -/
theorem mem_allPapers_retrieveStage (o : Oracles) (ts : List String) (p : Paper)
    (h : p ∈ allPapers (retrieveStage o ts)) :
    p.topic ∈ ts ∧ p ∈ retrieveOne o p.topic := by
  unfold allPapers at h
  rcases List.mem_flatten.mp h with ⟨l, hl, hpl⟩
  rcases List.mem_map.mp hl with ⟨kl, hkl, rfl⟩
  rcases mem_retrieveStage o ts kl hkl with ⟨hk1, hk2⟩
  have htopic : p.topic = kl.1 := by
    rw [hk2] at hpl
    exact retrieveOne_topic o kl.1 p hpl
  rw [htopic]
  rw [hk2] at hpl
  exact ⟨hk1, hpl⟩

theorem evalStage_topic_mem (o : Oracles) (uq : String) (ts : List String)
    (ep : EvaluatedPaper) (h : ep ∈ evalStage o uq (retrieveStage o ts)) :
    ep.topic ∈ ts := by
  rcases mem_evalStage o uq (retrieveStage o ts) ep h with ⟨p, hp, he⟩
  rcases evalOne_topic o uq p ep he with ⟨ht, _⟩
  rw [ht]
  exact (mem_allPapers_retrieveStage o ts p hp).1

/-! ## Claim C2: retrieval failures are isolated

The claim as stated expects `papers[T] == []` for a topic `T` whose
retrieval failed.  In the code, `raw_papers_per_topic[T]` is set to the
empty list, but the returned mapping is rebuilt from evaluated papers
only (`setdefault`-append), so `T` is absent as a key rather than mapped
to the empty sequence.  The failure is nonetheless isolated: every other
topic's entry is exactly the sorted evaluations of its own retrieval —
the amended theorem (`c2_amended_retrieval_isolated`, stated after its
supporting lemmas) proves both halves. -/

/-- The concrete scenario for C2: the identity translation, an index
whose search always fails. -/
def oC2 : Oracles :=
  { translate := fun t =>
      .ok { source_lang := "en", target_lang := "en", text := t, translation := t },
    search := fun _ _ => .error (.externalFailure "network down"),
    similarity := fun _ _ => .error (.externalFailure "unused"),
    rationaleFor := fun _ _ _ => .error (.externalFailure "unused") }

def rtC2 : ResearchTopics := { user_query := "q", topics := ["t1"] }

/-- Counterexample to C2 as stated: with retrieval failing for topic
"t1", the pipeline returns normally but the context maps "t1" to
nothing (`none`), not to the empty sequence (`some []`). -/
theorem c2_counterexample :
    (arxiv_research_tool oC2 rtC2).toOption.map (fun ctx => lookupKey "t1" ctx.papers)
        = some none ∧
      (arxiv_research_tool oC2 rtC2).toOption.map (fun ctx => lookupKey "t1" ctx.papers)
        ≠ some (some []) := by
  exact ⟨by decide, by decide⟩

/-! ## Claim C10: result entries are never empty -/

theorem sortByScoreDesc_ne_nil (l : List EvaluatedPaper) (h : l ≠ []) :
    sortByScoreDesc l ≠ [] := by
  intro hs
  apply h
  have hlen := List.length_insertionSort scoreGe l
  rw [sortByScoreDesc] at hs
  rw [hs] at hlen
  exact List.length_eq_zero.mp hlen.symm

/-- C10: in every context returned by the pipeline, every value of the
papers mapping is a non-empty sequence — keys are created only when an
evaluated paper is appended. -/
theorem c10_values_nonempty (o : Oracles) (rt : ResearchTopics) (ts : List String)
    (hts : translateTopics o rt.topics = .ok ts) :
    ∃ ctx, arxiv_research_tool o rt = .ok ctx ∧ ∀ kl ∈ ctx.papers, kl.2 ≠ [] := by
  refine ⟨_, arxiv_research_tool_ok o rt ts hts, ?_⟩
  intro kl hkl
  have hkl' : kl ∈ pipelinePapers o rt.user_query ts := hkl
  unfold pipelinePapers at hkl'
  rcases List.mem_map.mp hkl' with ⟨kl0, hkl0, rfl⟩
  have hinv := mem_groupPapers_aux (evalStage o rt.user_query (retrieveStage o ts)) []
    (fun kl1 h1 => absurd h1 (List.not_mem_nil kl1)) kl0 hkl0
  exact sortByScoreDesc_ne_nil kl0.2 hinv.1

/-- The concrete scenario for C10: one topic, one paper, everything
succeeds. -/
def oW10 : Oracles :=
  { translate := fun t =>
      .ok { source_lang := "en", target_lang := "en", text := t, translation := t },
    search := fun _ _ =>
      .ok [{ title := "A", summary := "S", entry_id := "u", published := "2024-01-01" }],
    similarity := fun _ _ => .ok 0,
    rationaleFor := fun _ _ _ => .ok "relevant" }

def rtW10 : ResearchTopics := { user_query := "q", topics := ["t"] }

/-- Witness for C10 at the concrete scenario. -/
theorem c10_witness :
    translateTopics oW10 rtW10.topics = .ok ["t"] ∧
      ∃ ctx, arxiv_research_tool oW10 rtW10 = .ok ctx ∧ ∀ kl ∈ ctx.papers, kl.2 ≠ [] :=
  ⟨rfl, c10_values_nonempty oW10 rtW10 ["t"] rfl⟩

/-! ## Claim C4: keys bind their papers' topics -/

/-- C4: in every context returned by the pipeline, every evaluated paper
stored under key `T` has `topic = T`, and every key of the mapping is a
member of the translated topic list (which the returned context
carries). -/
theorem c4_topic_key_invariant (o : Oracles) (rt : ResearchTopics) (ts : List String)
    (hts : translateTopics o rt.topics = .ok ts) :
    ∃ ctx, arxiv_research_tool o rt = .ok ctx ∧
      ctx.research_topics.topics = ts ∧
      ∀ kl ∈ ctx.papers, kl.1 ∈ ts ∧ ∀ ep ∈ kl.2, ep.topic = kl.1 := by
  refine ⟨_, arxiv_research_tool_ok o rt ts hts, rfl, ?_⟩
  intro kl hkl
  have hkl' : kl ∈ pipelinePapers o rt.user_query ts := hkl
  unfold pipelinePapers at hkl'
  rcases List.mem_map.mp hkl' with ⟨kl0, hkl0, rfl⟩
  constructor
  · rcases keys_groupPapers_aux (evalStage o rt.user_query (retrieveStage o ts)) []
      kl0 hkl0 with h | h
    · exact absurd h (by simp)
    · rcases List.mem_map.mp h with ⟨ep, hep, htop⟩
      rw [← htop]
      exact evalStage_topic_mem o rt.user_query ts ep hep
  · intro ep hep
    have hmem : ep ∈ kl0.2 := (List.mem_insertionSort scoreGe).mp hep
    exact (mem_groupPapers_aux (evalStage o rt.user_query (retrieveStage o ts)) []
      (fun kl1 h1 => absurd h1 (List.not_mem_nil kl1)) kl0 hkl0).2 ep hmem

/-- The concrete scenario for C4: two topics, one paper each. -/
def oW4 : Oracles :=
  { translate := fun t =>
      .ok { source_lang := "en", target_lang := "en", text := t, translation := t },
    search := fun q _ =>
      .ok [{ title := "A" ++ q, summary := "S", entry_id := "u", published := "2024-01-01" }],
    similarity := fun _ _ => .ok 0,
    rationaleFor := fun _ _ _ => .ok "relevant" }

def rtW4 : ResearchTopics := { user_query := "q", topics := ["t1", "t2"] }

/-- Witness for C4 at the concrete scenario. -/
theorem c4_witness :
    translateTopics oW4 rtW4.topics = .ok ["t1", "t2"] ∧
      ∃ ctx, arxiv_research_tool oW4 rtW4 = .ok ctx ∧
        ctx.research_topics.topics = ["t1", "t2"] ∧
        ∀ kl ∈ ctx.papers, kl.1 ∈ ["t1", "t2"] ∧ ∀ ep ∈ kl.2, ep.topic = kl.1 :=
  ⟨rfl, c4_topic_key_invariant oW4 rtW4 ["t1", "t2"] rfl⟩

/-! ## Claim C5: graph routing -/

/-- C5: after a chat-state execution the graph routes to the
tool-invocation state iff the last produced message carries one or more
tool calls, otherwise to the terminal state; from the tool-invocation
state it always transitions back to the chat state. -/
theorem c5_graph_routing (state : MessagesState) (m : Message)
    (hlast : state.messages.getLast? = some m) :
    (graphStep .chatbot state = some .research_pool ↔ m.tool_calls ≠ []) ∧
      (graphStep .chatbot state = some .terminal ↔ m.tool_calls = []) ∧
      ∀ s : MessagesState, graphStep .research_pool s = some .chatbot := by
  refine ⟨?_, ?_, fun s => rfl⟩ <;>
    · simp only [graphStep, should_research, hlast, Option.map_some']
      by_cases h : m.tool_calls = [] <;> simp [h]

/-- The concrete scenario for C5: a last message with one tool call. -/
def tcW5 : ToolCall :=
  { name := "arxiv_research_tool",
    args := { user_query := "q", topics := ["t"] }, id := "call_0" }

def msgW5 : Message := { content := "", tool_calls := [tcW5] }

def stW5 : MessagesState := { messages := [msgW5] }

/-- Witness for C5 at the concrete scenario. -/
theorem c5_witness :
    stW5.messages.getLast? = some msgW5 ∧
      ((graphStep .chatbot stW5 = some .research_pool ↔ msgW5.tool_calls ≠ []) ∧
        (graphStep .chatbot stW5 = some .terminal ↔ msgW5.tool_calls = []) ∧
        ∀ s : MessagesState, graphStep .research_pool s = some .chatbot) :=
  ⟨rfl, c5_graph_routing stW5 msgW5 rfl⟩

/-! ## Claim C6: a failing tool aborts the graph walk

The claim expects a tool-invocation failure to be converted into an
error-content tool-result message.  `research_pool_node` has no
`try`/`except` around `tool.invoke`, so the exception propagates and the
node produces no messages at all. -/

/-- The concrete scenario for C6: a registered tool call whose execution
fails (translation service down). -/
def oC6 : Oracles :=
  { translate := fun _ => .error (.externalFailure "model down"),
    search := fun _ _ => .error (.externalFailure "unused"),
    similarity := fun _ _ => .error (.externalFailure "unused"),
    rationaleFor := fun _ _ _ => .error (.externalFailure "unused") }

def tcC6 : ToolCall :=
  { name := "arxiv_research_tool",
    args := { user_query := "q", topics := ["x"] }, id := "call_1" }

def stC6 : MessagesState := { messages := [{ content := "hi", tool_calls := [tcC6] }] }

/-- Counterexample to C6 as stated: the invoked tool fails, and the
tool-invocation node propagates the error instead of returning an
error-content tool-result message. -/
theorem c6_counterexample :
    (∃ e, invokeToolCall oC6 tcC6 = .error e) ∧
      research_pool_node oC6 stC6
        = .error (.translationError "Failed to translate: x") := by
  exact ⟨⟨.translationError "Failed to translate: x", rfl⟩, rfl⟩

/-- If some tool call of a list fails, the whole invocation loop
fails. -/
theorem invokeToolCalls_error_of_mem (o : Oracles) :
    ∀ (tcs : List ToolCall) (tc : ToolCall), tc ∈ tcs →
      (∃ e, invokeToolCall o tc = .error e) →
      ∃ e, invokeToolCalls o tcs = .error e
  | [], tc, htc, _ => absurd htc (List.not_mem_nil tc)
  | tc' :: tcs, tc, htc, hfail => by
    rcases List.mem_cons.mp htc with rfl | hmem
    · rcases hfail with ⟨e, he⟩
      exact ⟨e, by simp [invokeToolCalls, he]⟩
    · cases h' : invokeToolCall o tc' with
      | error e => exact ⟨e, by simp [invokeToolCalls, h']⟩
      | ok obs =>
        rcases invokeToolCalls_error_of_mem o tcs tc hmem hfail with ⟨e, he⟩
        exact ⟨e, by simp [invokeToolCalls, h', he]⟩

/-- C6 (amended): if any tool call dispatched in the tool-invocation
state fails, the exception propagates out of `research_pool_node` — the
graph walk aborts and no error-content tool-result message is
produced. -/
theorem c6_amended_tool_error_propagates (o : Oracles) (state : MessagesState)
    (m : Message) (hlast : state.messages.getLast? = some m)
    (tc : ToolCall) (htc : tc ∈ m.tool_calls)
    (hfail : ∃ e, invokeToolCall o tc = .error e) :
    (∃ e, research_pool_node o state = .error e) ∧
      ∀ msgs, research_pool_node o state ≠ .ok msgs := by
  rcases invokeToolCalls_error_of_mem o m.tool_calls tc htc hfail with ⟨e, he⟩
  have hnode : research_pool_node o state = .error e := by
    simp [research_pool_node, hlast, he]
  exact ⟨⟨e, hnode⟩, fun msgs hok => by rw [hnode] at hok; exact Except.noConfusion hok⟩

/-- Witness for the amended C6 at the concrete scenario. -/
theorem c6_witness :
    stC6.messages.getLast? = some { content := "hi", tool_calls := [tcC6] } ∧
      (∃ e, research_pool_node oC6 stC6 = .error e) ∧
      ∀ msgs, research_pool_node oC6 stC6 ≠ .ok msgs :=
  ⟨rfl, c6_amended_tool_error_propagates oC6 stC6 { content := "hi", tool_calls := [tcC6] }
    rfl tcC6 (by simp)
    ⟨.translationError "Failed to translate: x", rfl⟩⟩

/-! ## Stability of the per-topic sort -/

/-- Inserting into the sorted prefix keeps every equal-score class in
order: the inserted paper lands before the equal-score papers already
present only when the source order says so. -/
theorem filter_score_orderedInsert (s : ℚ) (x : EvaluatedPaper) :
    ∀ l : List EvaluatedPaper,
      (l.orderedInsert scoreGe x).filter (fun ep => ep.evaluation.score = s)
        = (x :: l).filter (fun ep => ep.evaluation.score = s)
  | [] => rfl
  | y :: ys => by
    rw [List.orderedInsert]
    by_cases hxy : scoreGe x y
    · rw [if_pos hxy]
    · rw [if_neg hxy]
      have hlt : x.evaluation.score < y.evaluation.score := lt_of_not_le hxy
      by_cases hy : y.evaluation.score = s
      · by_cases hx : x.evaluation.score = s
        · exact absurd (hx.trans hy.symm) (ne_of_lt hlt)
        · rw [List.filter_cons_of_pos (by simp [hy]),
            filter_score_orderedInsert s x ys,
            List.filter_cons_of_neg (by simp [hx]),
            List.filter_cons_of_neg (by simp [hx]),
            List.filter_cons_of_pos (by simp [hy])]
      · rw [List.filter_cons_of_neg (by simp [hy]),
          filter_score_orderedInsert s x ys]
        by_cases hx : x.evaluation.score = s
        · rw [List.filter_cons_of_pos (by simp [hx]),
            List.filter_cons_of_pos (by simp [hx]),
            List.filter_cons_of_neg (by simp [hy])]
        · rw [List.filter_cons_of_neg (by simp [hx]),
            List.filter_cons_of_neg (by simp [hx]),
            List.filter_cons_of_neg (by simp [hy])]

/-- Python's stable sort: within every equal-score class, the sorted
sequence preserves the pre-sort order. -/
theorem filter_score_insertionSort (s : ℚ) :
    ∀ l : List EvaluatedPaper,
      (l.insertionSort scoreGe).filter (fun ep => ep.evaluation.score = s)
        = l.filter (fun ep => ep.evaluation.score = s)
  | [] => rfl
  | x :: xs => by
    rw [List.insertionSort, filter_score_orderedInsert s x (xs.insertionSort scoreGe)]
    by_cases hx : x.evaluation.score = s
    · rw [List.filter_cons_of_pos (by simp [hx]), List.filter_cons_of_pos (by simp [hx]),
        filter_score_insertionSort s xs]
    · rw [List.filter_cons_of_neg (by simp [hx]), List.filter_cons_of_neg (by simp [hx]),
        filter_score_insertionSort s xs]

/-! ## The pre-sort order of a topic's group is its retrieval order -/

/-- Restricting surviving evaluations to one topic commutes with
evaluating that topic's papers in order. -/
theorem filter_topic_filterMap (o : Oracles) (uq k : String) :
    ∀ ps : List Paper,
      (ps.filterMap (evalOne o uq)).filter (fun ep => ep.topic = k)
        = (ps.filter (fun p => p.topic = k)).filterMap (evalOne o uq)
  | [] => rfl
  | p :: ps => by
    cases he : evalOne o uq p with
    | none =>
      simp only [List.filterMap_cons, he]
      by_cases ht : p.topic = k
      · rw [List.filter_cons_of_pos (by simp [ht]), List.filterMap_cons, he]
        exact filter_topic_filterMap o uq k ps
      · rw [List.filter_cons_of_neg (by simp [ht])]
        exact filter_topic_filterMap o uq k ps
    | some ep =>
      have hept : ep.topic = p.topic := (evalOne_topic o uq p ep he).1
      simp only [List.filterMap_cons, he]
      by_cases ht : p.topic = k
      · rw [List.filter_cons_of_pos (by simp [hept, ht]),
          List.filter_cons_of_pos (by simp [ht]), List.filterMap_cons, he,
          filter_topic_filterMap o uq k ps]
      · rw [List.filter_cons_of_neg (by simp [hept, ht]),
          List.filter_cons_of_neg (by simp [ht]),
          filter_topic_filterMap o uq k ps]

theorem filter_topic_allPapers_nil (k : String) :
    ∀ raw : List (String × List Paper),
      (∀ kl ∈ raw, ∀ p ∈ kl.2, p.topic = kl.1) → k ∉ raw.map Prod.fst →
      (allPapers raw).filter (fun p => p.topic = k) = []
  | [], _, _ => rfl
  | (k', ps) :: rest, htag, hk => by
    have hallcons : allPapers ((k', ps) :: rest) = ps ++ allPapers rest := rfl
    rw [hallcons, List.filter_append]
    have hk1 : k' ≠ k := fun h => hk (by simp [h])
    have hps : ps.filter (fun p => p.topic = k) = [] := by
      rw [List.filter_eq_nil_iff]
      intro p hp
      simp only [decide_eq_true_eq]
      rw [htag (k', ps) (List.mem_cons_self _ _) p hp]
      exact hk1
    rw [hps, filter_topic_allPapers_nil k rest
      (fun kl hkl => htag kl (List.mem_cons_of_mem _ hkl))
      (fun h => hk (by simp [List.mem_cons]; exact Or.inr (by simpa using h)))]
    rfl

/-- With topic-tagged entries and distinct keys, the papers of topic `k`
inside the flattened batch are exactly the entry of key `k`, in
order. -/
theorem filter_topic_allPapers (k : String) :
    ∀ raw : List (String × List Paper),
      (∀ kl ∈ raw, ∀ p ∈ kl.2, p.topic = kl.1) → ((raw.map Prod.fst).Nodup) →
      (allPapers raw).filter (fun p => p.topic = k) = (lookupKey k raw).getD []
  | [], _, _ => rfl
  | (k', ps) :: rest, htag, hnd => by
    have hallcons : allPapers ((k', ps) :: rest) = ps ++ allPapers rest := rfl
    rw [hallcons, List.filter_append]
    have htagrest : ∀ kl ∈ rest, ∀ p ∈ kl.2, p.topic = kl.1 :=
      fun kl hkl => htag kl (List.mem_cons_of_mem _ hkl)
    have hndrest : (rest.map Prod.fst).Nodup := (List.nodup_cons.mp (by simpa using hnd)).2
    by_cases hk : k' = k
    · subst hk
      have hps : ps.filter (fun p => p.topic = k') = ps := by
        rw [List.filter_eq_self]
        intro p hp
        simp only [decide_eq_true_eq]
        exact htag (k', ps) (List.mem_cons_self _ _) p hp
      have hknotin : k' ∉ rest.map Prod.fst := (List.nodup_cons.mp (by simpa using hnd)).1
      rw [hps, filter_topic_allPapers_nil k' rest htagrest hknotin]
      simp [lookupKey]
    · have hps : ps.filter (fun p => p.topic = k) = [] := by
        rw [List.filter_eq_nil_iff]
        intro p hp
        simp only [decide_eq_true_eq]
        rw [htag (k', ps) (List.mem_cons_self _ _) p hp]
        exact hk
      rw [hps, List.nil_append, filter_topic_allPapers k rest htagrest hndrest]
      simp [lookupKey, hk]

/-! ## Distinctness of the retrieval-stage keys -/

theorem keys_dictInsert {α : Type} (k : String) (v : α) :
    ∀ m : List (String × α),
      (dictInsert m k v).map Prod.fst
        = if k ∈ m.map Prod.fst then m.map Prod.fst else m.map Prod.fst ++ [k]
  | [] => by simp [dictInsert]
  | (k', v') :: rest => by
    by_cases hk : k' = k
    · subst hk
      simp [dictInsert]
    · have hkk' : ¬ k = k' := fun h => hk h.symm
      have hcond : (k ∈ ((k', v') :: rest).map Prod.fst) = (k ∈ rest.map Prod.fst) := by
        simp only [List.map_cons, List.mem_cons]
        exact propext (or_iff_right hkk')
      simp only [dictInsert, if_neg hk, List.map_cons, keys_dictInsert k v rest, hcond]
      by_cases hmem : k ∈ rest.map Prod.fst
      · rw [if_pos (List.mem_cons.mpr (Or.inr hmem)), if_pos hmem]
      · rw [if_neg (fun h => (List.mem_cons.mp h).elim hkk' hmem), if_neg hmem,
          List.cons_append]

theorem nodup_keys_dictInsert {α : Type} (k : String) (v : α)
    (m : List (String × α)) (h : (m.map Prod.fst).Nodup) :
    ((dictInsert m k v).map Prod.fst).Nodup := by
  rw [keys_dictInsert]
  by_cases hk : k ∈ m.map Prod.fst
  · rw [if_pos hk]
    exact h
  · rw [if_neg hk]
    simp [List.nodup_append, h, hk]

theorem nodup_keys_retrieveStage (o : Oracles) :
    ∀ (ts : List String) (m : List (String × List Paper)),
      (m.map Prod.fst).Nodup →
      ((ts.foldl (fun m' t => dictInsert m' t (retrieveOne o t)) m).map Prod.fst).Nodup
  | [], _, h => h
  | t :: ts, m, h => by
    rw [List.foldl_cons]
    exact nodup_keys_retrieveStage o ts (dictInsert m t (retrieveOne o t))
      (nodup_keys_dictInsert t (retrieveOne o t) m h)

/-! ## The surviving evaluations of one topic -/

/-- For a requested topic, the surviving evaluations carrying that topic
are exactly the in-order evaluations of that topic's own retrieval
result: each topic's contribution depends only on its own retrieval and
evaluation. -/
theorem filter_topic_evalStage (o : Oracles) (uq : String) (ts : List String)
    (k : String) (hk : k ∈ ts) :
    (evalStage o uq (retrieveStage o ts)).filter (fun ep => ep.topic = k)
      = (retrieveOne o k).filterMap (evalOne o uq) := by
  have htag : ∀ kl ∈ retrieveStage o ts, ∀ p ∈ kl.2, p.topic = kl.1 := by
    intro kl hkl p hp
    rcases mem_retrieveStage o ts kl hkl with ⟨_, hv⟩
    rw [hv] at hp
    exact retrieveOne_topic o kl.1 p hp
  have hnd : ((retrieveStage o ts).map Prod.fst).Nodup :=
    nodup_keys_retrieveStage o ts [] List.nodup_nil
  unfold evalStage
  rw [filter_topic_filterMap, filter_topic_allPapers k (retrieveStage o ts) htag hnd,
    lookupKey_retrieveStage, if_pos hk]
  rfl

/-- A topic outside the request contributes no surviving evaluation. -/
theorem filter_topic_evalStage_not_mem (o : Oracles) (uq : String) (ts : List String)
    (k : String) (hk : k ∉ ts) :
    (evalStage o uq (retrieveStage o ts)).filter (fun ep => ep.topic = k) = [] := by
  rw [List.filter_eq_nil_iff]
  intro ep hep
  simp only [decide_eq_true_eq]
  intro heq
  exact hk (heq ▸ evalStage_topic_mem o uq ts ep hep)

/-- Each requested topic's entry in the final mapping is determined by
that topic's own retrieval and evaluations alone: absent when none
survived, otherwise their stable descending sort. -/
theorem lookupKey_pipelinePapers (o : Oracles) (uq : String) (ts : List String)
    (k : String) (hk : k ∈ ts) :
    lookupKey k (pipelinePapers o uq ts)
      = if (retrieveOne o k).filterMap (evalOne o uq) = [] then none
        else some (sortByScoreDesc ((retrieveOne o k).filterMap (evalOne o uq))) := by
  unfold pipelinePapers
  rw [lookupKey_map_values, lookupKey_groupPapers, filter_topic_evalStage o uq ts k hk]
  by_cases h : (retrieveOne o k).filterMap (evalOne o uq) = []
  · rw [if_pos h, if_pos h]
    rfl
  · rw [if_neg h, if_neg h, Option.map_some']

/-- C2 (amended): for every topic `T` of the translated list whose paper
retrieval fails, the pipeline does not raise; the returned context has
no entry for `T` at all (rather than mapping `T` to the empty sequence);
and the failure does not affect any other topic: every other requested
topic's entry is exactly the sorted evaluations of its own retrieval. -/
theorem c2_amended_retrieval_isolated (o : Oracles) (rt : ResearchTopics)
    (ts : List String) (hts : translateTopics o rt.topics = .ok ts)
    (T : String) (hT : T ∈ ts)
    (hfail : ∃ e, o.search ("all:\"" ++ T ++ "\"") 5 = .error e) :
    ∃ ctx, arxiv_research_tool o rt = .ok ctx ∧
      lookupKey T ctx.papers = none ∧
      ∀ k ∈ ts, k ≠ T →
        lookupKey k ctx.papers
          = if (retrieveOne o k).filterMap (evalOne o rt.user_query) = [] then none
            else some (sortByScoreDesc
              ((retrieveOne o k).filterMap (evalOne o rt.user_query))) := by
  refine ⟨_, arxiv_research_tool_ok o rt ts hts, ?_, ?_⟩
  · rcases hfail with ⟨e, he⟩
    show lookupKey T (pipelinePapers o rt.user_query ts) = none
    rw [lookupKey_pipelinePapers o rt.user_query ts T hT,
      retrieveOne_eq_nil_of_search_error o T e he]
    rfl
  · intro k hk _
    exact lookupKey_pipelinePapers o rt.user_query ts k hk

/-- The concrete scenario for the amended C2: two topics; retrieval
fails for "bad" and returns one paper for "good". -/
def oW2 : Oracles :=
  { translate := fun t =>
      .ok { source_lang := "en", target_lang := "en", text := t, translation := t },
    search := fun q _ =>
      if q = "all:\"bad\"" then .error (.externalFailure "network down")
      else .ok [{ title := "A", summary := "S", entry_id := "u",
                  published := "2024-01-01" }],
    similarity := fun _ _ => .ok 0,
    rationaleFor := fun _ _ _ => .ok "relevant" }

def rtW2 : ResearchTopics := { user_query := "q", topics := ["bad", "good"] }

/-- Witness for the amended C2: the pipeline returns normally, "bad" is
absent, and the surviving topic "good" keeps exactly its own sorted
evaluations. -/
theorem c2_witness :
    translateTopics oW2 rtW2.topics = .ok ["bad", "good"] ∧
      (∃ e, oW2.search ("all:\"" ++ "bad" ++ "\"") 5 = .error e) ∧
      ∃ ctx, arxiv_research_tool oW2 rtW2 = .ok ctx ∧
        lookupKey "bad" ctx.papers = none ∧
        ∀ k ∈ ["bad", "good"], k ≠ "bad" →
          lookupKey k ctx.papers
            = if (retrieveOne oW2 k).filterMap (evalOne oW2 rtW2.user_query) = [] then none
              else some (sortByScoreDesc
                ((retrieveOne oW2 k).filterMap (evalOne oW2 rtW2.user_query))) :=
  ⟨rfl, ⟨.externalFailure "network down", rfl⟩,
    c2_amended_retrieval_isolated oW2 rtW2 ["bad", "good"] rfl "bad" (by simp)
      ⟨.externalFailure "network down", rfl⟩⟩

/-! ## Claim C3: sortedness and stability of the per-topic sort

The claim as stated ties equal scores to the retrieval order.  In the
code, `evaluated` is collected from `as_completed(tasks)` over a thread
pool, so the pre-sort order of each topic's group is the nondeterministic
thread-completion order, not the retrieval order.  `list.sort` is stable
with respect to that completion order.  The completion order is made
explicit below: `arxiv_research_tool_sched` takes the arrival order of
the surviving evaluations as a parameter, constrained in the theorems to
a permutation of the completed evaluations; `arxiv_research_tool` is its
submission-order instance. -/

/-- The pipeline with the stage-3 `as_completed` arrival order explicit:
`evaluated` is the order in which the evaluation pool delivered the
surviving evaluations (the papers dict of the source is built from the
`evaluated` list alone).  Theorems quantify over every `evaluated` that
is a permutation of the completed evaluations, which is all the
scheduler guarantees. -/
def arxiv_research_tool_sched (o : Oracles) (research_topics : ResearchTopics)
    (evaluated : List EvaluatedPaper) : Except PipelineError ResearchContext :=
  match translateTopics o research_topics.topics with
  | .error e => .error e
  | .ok translated_topics =>
    .ok { research_topics := { user_query := research_topics.user_query,
                               topics := translated_topics },
          papers := (groupPapers evaluated).map (fun kl => (kl.1, sortByScoreDesc kl.2)) }

/-- The deterministic pipeline is the sched pipeline run at the
submission-order schedule. -/
theorem arxiv_research_tool_eq_sched (o : Oracles) (rt : ResearchTopics)
    (ts : List String) (hts : translateTopics o rt.topics = .ok ts) :
    arxiv_research_tool o rt
      = arxiv_research_tool_sched o rt (evalStage o rt.user_query (retrieveStage o ts)) := by
  simp [arxiv_research_tool, arxiv_research_tool_sched, hts, pipelinePapers]

/-- The concrete scenario for C3: one topic with two papers of equal
score. -/
def oW3 : Oracles :=
  { translate := fun t =>
      .ok { source_lang := "en", target_lang := "en", text := t, translation := t },
    search := fun _ _ =>
      .ok [{ title := "A", summary := "S1", entry_id := "u1", published := "2024-01-01" },
           { title := "B", summary := "S2", entry_id := "u2", published := "2024-01-02" }],
    similarity := fun _ _ => .ok 0,
    rationaleFor := fun _ _ _ => .ok "relevant" }

def rtW3 : ResearchTopics := { user_query := "q", topics := ["t"] }

def pX3a : Paper :=
  { topic := "t", title := "A", summary := "S1", url := "u1", published := "2024-01-01" }

def pX3b : Paper :=
  { topic := "t", title := "B", summary := "S2", url := "u2", published := "2024-01-02" }

/-- The score both papers of the scenario receive: similarity 0
rescaled from [-1, 1] to [0, 1], written as the pipeline computes it. -/
def scoreX3 : ℚ := ((0 - (-1)) * (1 - 0)) / (1 - (-1)) + 0

theorem scoreX3_eq : scoreX3 = 1/2 := by norm_num [scoreX3]

def epX3a : EvaluatedPaper :=
  mkEvaluatedPaper pX3a { score := scoreX3, rationale := "relevant" }

def epX3b : EvaluatedPaper :=
  mkEvaluatedPaper pX3b { score := scoreX3, rationale := "relevant" }

/-- A legal completion order of the evaluation pool that reverses the
two equal-score papers of topic "t". -/
def evX3 : List EvaluatedPaper := [epX3b, epX3a]

/-- The submission-order evaluations of the scenario. -/
theorem evalStage_oW3_eq :
    evalStage oW3 rtW3.user_query (retrieveStage oW3 ["t"]) = [epX3a, epX3b] := rfl

/-- The reversed order is a legal completion order: a permutation of the
surviving evaluations. -/
theorem evX3_perm :
    evX3.Perm (evalStage oW3 rtW3.user_query (retrieveStage oW3 ["t"])) := by
  rw [evalStage_oW3_eq]
  exact List.Perm.swap epX3a epX3b []

/-- Counterexample to C3 as stated: under a legal thread-completion
order (a permutation of the surviving evaluations), the returned
equal-score class of topic "t" is [B, A] while the retrieval order is
[A, B] — ties follow completion order, not retrieval order. -/
theorem c3_counterexample :
    evX3.Perm (evalStage oW3 rtW3.user_query (retrieveStage oW3 ["t"])) ∧
      (arxiv_research_tool_sched oW3 rtW3 evX3).toOption.map
          (fun ctx => lookupKey "t" ctx.papers) = some (some [epX3b, epX3a]) ∧
      [epX3b, epX3a].filter (fun ep => ep.evaluation.score = 1/2)
        ≠ ((retrieveOne oW3 "t").filterMap (evalOne oW3 rtW3.user_query)).filter
            (fun ep => ep.evaluation.score = 1/2) := by
  have hsa : epX3a.evaluation.score = 1/2 := scoreX3_eq
  have hsb : epX3b.evaluation.score = 1/2 := scoreX3_eq
  refine ⟨evX3_perm, ?_, ?_⟩
  · have hsort : sortByScoreDesc [epX3b, epX3a] = [epX3b, epX3a] := by
      simp only [sortByScoreDesc, List.insertionSort, List.orderedInsert_nil,
        List.orderedInsert]
      rw [if_pos (show scoreGe epX3b epX3a from le_of_eq (hsa.trans hsb.symm))]
    have hrun : arxiv_research_tool_sched oW3 rtW3 evX3
        = .ok { research_topics := { user_query := "q", topics := ["t"] },
                papers := [("t", sortByScoreDesc [epX3b, epX3a])] } := rfl
    rw [hrun, hsort]
    rfl
  · have hret : (retrieveOne oW3 "t").filterMap (evalOne oW3 rtW3.user_query)
        = [epX3a, epX3b] := rfl
    rw [hret]
    have hfl : ∀ x y : EvaluatedPaper, x.evaluation.score = 1/2 →
        y.evaluation.score = 1/2 →
        [x, y].filter (fun ep => ep.evaluation.score = (1/2 : ℚ)) = [x, y] := by
      intro x y hx hy
      rw [List.filter_cons_of_pos (by simp [hx]), List.filter_cons_of_pos (by simp [hy])]
      rfl
    rw [hfl epX3b epX3a hsb hsa, hfl epX3a epX3b hsa hsb]
    intro h
    have h1 : epX3b = epX3a := by injection h
    have h2 : epX3b.title = epX3a.title := congrArg EvaluatedPaper.title h1
    exact absurd h2 (by decide)

/-- C3 (amended): for every completion order of the evaluation pool —
any permutation `evaluated` of the surviving evaluations — each topic's
sequence in the returned context is sorted by score descending, and
within every equal-score class the pre-sort arrival (thread-completion)
order is preserved (the sort is stable); that arrival order is a
permutation of the topic's retrieval order, but need not equal it. -/
theorem c3_amended_sorted_stable (o : Oracles) (rt : ResearchTopics) (ts : List String)
    (hts : translateTopics o rt.topics = .ok ts)
    (evaluated : List EvaluatedPaper)
    (hev : evaluated.Perm (evalStage o rt.user_query (retrieveStage o ts))) :
    ∃ ctx, arxiv_research_tool_sched o rt evaluated = .ok ctx ∧
      ∀ k l, lookupKey k ctx.papers = some l →
        List.Sorted scoreGe l ∧
        (∀ s : ℚ, l.filter (fun ep => ep.evaluation.score = s)
          = (evaluated.filter (fun ep => ep.topic = k)).filter
              (fun ep => ep.evaluation.score = s)) ∧
        (evaluated.filter (fun ep => ep.topic = k)).Perm
          ((retrieveOne o k).filterMap (evalOne o rt.user_query)) := by
  have htool : arxiv_research_tool_sched o rt evaluated
      = .ok { research_topics := { user_query := rt.user_query, topics := ts },
              papers := (groupPapers evaluated).map
                (fun kl => (kl.1, sortByScoreDesc kl.2)) } := by
    simp [arxiv_research_tool_sched, hts]
  refine ⟨_, htool, ?_⟩
  intro k l hl
  have hl' : lookupKey k ((groupPapers evaluated).map
      (fun kl => (kl.1, sortByScoreDesc kl.2))) = some l := hl
  rw [lookupKey_map_values, lookupKey_groupPapers] at hl'
  by_cases hfil : evaluated.filter (fun ep => ep.topic = k) = []
  · rw [if_pos hfil] at hl'
    exact absurd hl' (by simp)
  · rw [if_neg hfil, Option.map_some'] at hl'
    have hlval : l = sortByScoreDesc (evaluated.filter (fun ep => ep.topic = k)) :=
      (Option.some.inj hl').symm
    have hpermf : (evaluated.filter (fun ep => ep.topic = k)).Perm
        ((evalStage o rt.user_query (retrieveStage o ts)).filter
          (fun ep => ep.topic = k)) := hev.filter _
    have hk : k ∈ ts := by
      by_contra hk
      apply hfil
      have h0 := filter_topic_evalStage_not_mem o rt.user_query ts k hk
      rw [h0] at hpermf
      exact hpermf.eq_nil
    refine ⟨?_, ?_, ?_⟩
    · rw [hlval, sortByScoreDesc]
      exact List.sorted_insertionSort scoreGe _
    · intro s
      rw [hlval, sortByScoreDesc, filter_score_insertionSort]
    · rw [filter_topic_evalStage o rt.user_query ts k hk] at hpermf
      exact hpermf

/-- Witness for the amended C3 at the reversed completion order of the
concrete scenario. -/
theorem c3_amended_witness :
    translateTopics oW3 rtW3.topics = .ok ["t"] ∧
      evX3.Perm (evalStage oW3 rtW3.user_query (retrieveStage oW3 ["t"])) ∧
      ∃ ctx, arxiv_research_tool_sched oW3 rtW3 evX3 = .ok ctx ∧
        ∀ k l, lookupKey k ctx.papers = some l →
          List.Sorted scoreGe l ∧
          (∀ s : ℚ, l.filter (fun ep => ep.evaluation.score = s)
            = (evX3.filter (fun ep => ep.topic = k)).filter
                (fun ep => ep.evaluation.score = s)) ∧
          (evX3.filter (fun ep => ep.topic = k)).Perm
            ((retrieveOne oW3 k).filterMap (evalOne oW3 rtW3.user_query)) :=
  ⟨rfl, evX3_perm, c3_amended_sorted_stable oW3 rtW3 ["t"] rfl evX3 evX3_perm⟩

/-! ## Claim C7: per-paper evaluation failures are dropped -/

theorem flatten_map_appendAt (k : String) (ep : EvaluatedPaper) :
    ∀ m : List (String × List EvaluatedPaper),
      ((appendAt m k ep).map Prod.snd).flatten ~ (m.map Prod.snd).flatten ++ [ep]
  | [] => by simp [appendAt]
  | (k', l) :: rest => by
    by_cases hk : k' = k
    · subst hk
      simp only [appendAt, if_pos rfl, List.map_cons, List.flatten_cons]
      calc (l ++ [ep]) ++ (rest.map Prod.snd).flatten
          = l ++ ([ep] ++ (rest.map Prod.snd).flatten) := by rw [List.append_assoc]
        _ ~ l ++ ((rest.map Prod.snd).flatten ++ [ep]) :=
            List.Perm.append_left l List.perm_append_comm
        _ = (l ++ (rest.map Prod.snd).flatten) ++ [ep] := by rw [List.append_assoc]
    · simp only [appendAt, if_neg hk, List.map_cons, List.flatten_cons]
      calc l ++ ((appendAt rest k ep).map Prod.snd).flatten
          ~ l ++ ((rest.map Prod.snd).flatten ++ [ep]) :=
            List.Perm.append_left l (flatten_map_appendAt k ep rest)
        _ = (l ++ (rest.map Prod.snd).flatten) ++ [ep] := by rw [List.append_assoc]

theorem flatten_groupPapers_aux :
    ∀ (eps : List EvaluatedPaper) (m : List (String × List EvaluatedPaper)),
      ((eps.foldl (fun m' e => appendAt m' e.topic e) m).map Prod.snd).flatten
        ~ (m.map Prod.snd).flatten ++ eps
  | [], m => by simp
  | ep :: eps, m => by
    rw [List.foldl_cons]
    calc ((eps.foldl (fun m' e => appendAt m' e.topic e)
            (appendAt m ep.topic ep)).map Prod.snd).flatten
        ~ ((appendAt m ep.topic ep).map Prod.snd).flatten ++ eps :=
          flatten_groupPapers_aux eps (appendAt m ep.topic ep)
      _ ~ ((m.map Prod.snd).flatten ++ [ep]) ++ eps :=
          List.Perm.append_right eps (flatten_map_appendAt ep.topic ep m)
      _ = (m.map Prod.snd).flatten ++ (ep :: eps) := by
          rw [List.append_assoc]
          rfl

/-- The grouped mapping holds, across all keys, exactly the surviving
evaluated papers. -/
theorem flatten_groupPapers (eps : List EvaluatedPaper) :
    ((groupPapers eps).map Prod.snd).flatten ~ eps := by
  simpa using flatten_groupPapers_aux eps []

theorem flatten_map_sort (m : List (String × List EvaluatedPaper)) :
    ((m.map (fun kl => (kl.1, sortByScoreDesc kl.2))).map Prod.snd).flatten
      ~ (m.map Prod.snd).flatten := by
  induction m with
  | nil => rfl
  | cons kl rest ih =>
    simp only [List.map_cons, List.flatten_cons]
    exact List.Perm.append (List.perm_insertionSort scoreGe kl.2) ih

theorem flatten_pipelinePapers (o : Oracles) (uq : String) (ts : List String) :
    ((pipelinePapers o uq ts).map Prod.snd).flatten
      ~ evalStage o uq (retrieveStage o ts) := by
  unfold pipelinePapers
  exact (flatten_map_sort (groupPapers (evalStage o uq (retrieveStage o ts)))).trans
    (flatten_groupPapers (evalStage o uq (retrieveStage o ts)))

theorem length_filterMap_of_isSome {α β : Type} (f : α → Option β) :
    ∀ l : List α, (∀ x ∈ l, (f x).isSome) → (l.filterMap f).length = l.length
  | [], _ => rfl
  | x :: xs, h => by
    cases hx : f x with
    | none =>
      exact absurd (h x (List.mem_cons_self x xs)) (by simp [hx])
    | some b =>
      simp only [List.filterMap_cons, hx, List.length_cons,
        length_filterMap_of_isSome f xs (fun y hy => h y (List.mem_cons_of_mem x hy))]

/-- C7: if exactly one paper of the retrieved batch fails evaluation,
the pipeline does not raise; the result holds exactly the evaluations of
the other papers — one fewer than the batch, none matching the failed
paper. -/
theorem c7_eval_failure_dropped (o : Oracles) (rt : ResearchTopics) (ts : List String)
    (hts : translateTopics o rt.topics = .ok ts)
    (pbad : Paper) (l1 l2 : List Paper)
    (hsplit : allPapers (retrieveStage o ts) = l1 ++ pbad :: l2)
    (hbad : evalOne o rt.user_query pbad = none)
    (hgood : ∀ p ∈ l1 ++ l2, (evalOne o rt.user_query p).isSome) :
    ∃ ctx, arxiv_research_tool o rt = .ok ctx ∧
      ((ctx.papers.map Prod.snd).flatten).length = (l1 ++ pbad :: l2).length - 1 ∧
      (∀ ep ∈ (ctx.papers.map Prod.snd).flatten, ep.paper ≠ pbad) ∧
      (ctx.papers.map Prod.snd).flatten ~ (l1 ++ l2).filterMap (evalOne o rt.user_query) := by
  refine ⟨_, arxiv_research_tool_ok o rt ts hts, ?_⟩
  have hperm : ((pipelinePapers o rt.user_query ts).map Prod.snd).flatten
      ~ evalStage o rt.user_query (retrieveStage o ts) :=
    flatten_pipelinePapers o rt.user_query ts
  have heval : evalStage o rt.user_query (retrieveStage o ts)
      = (l1 ++ l2).filterMap (evalOne o rt.user_query) := by
    unfold evalStage
    rw [hsplit, List.filterMap_append, List.filterMap_cons, hbad, List.filterMap_append]
  have hperm2 : ((pipelinePapers o rt.user_query ts).map Prod.snd).flatten
      ~ (l1 ++ l2).filterMap (evalOne o rt.user_query) := heval ▸ hperm
  refine ⟨?_, ?_, hperm2⟩
  · rw [hperm2.length_eq, length_filterMap_of_isSome (evalOne o rt.user_query) (l1 ++ l2) hgood]
    simp only [List.length_append, List.length_cons]
    omega
  · intro ep hep
    have hep' : ep ∈ (l1 ++ l2).filterMap (evalOne o rt.user_query) := hperm2.mem_iff.mp hep
    rcases List.mem_filterMap.mp hep' with ⟨p, hp, hpe⟩
    have hpaper : ep.paper = p := (evalOne_topic o rt.user_query p ep hpe).2
    rw [hpaper]
    intro hcontra
    rw [hcontra, hbad] at hpe
    exact Option.noConfusion hpe

/-- The concrete scenario for C7: two retrieved papers; the second one's
embedding call fails, so its evaluation is dropped. -/
def oW7 : Oracles :=
  { translate := fun t =>
      .ok { source_lang := "en", target_lang := "en", text := t, translation := t },
    search := fun _ _ =>
      .ok [{ title := "A", summary := "S1", entry_id := "u1", published := "2024-01-01" },
           { title := "B", summary := "S2", entry_id := "u2", published := "2024-01-02" }],
    similarity := fun _ r =>
      if r = "B\nS2" then .error (.externalFailure "embed down") else .ok 0,
    rationaleFor := fun _ _ _ => .ok "relevant" }

def rtW7 : ResearchTopics := { user_query := "q", topics := ["t"] }

def pW7a : Paper :=
  { topic := "t", title := "A", summary := "S1", url := "u1", published := "2024-01-01" }

def pW7b : Paper :=
  { topic := "t", title := "B", summary := "S2", url := "u2", published := "2024-01-02" }

/-- Witness for C7 at the concrete scenario. -/
theorem c7_witness :
    translateTopics oW7 rtW7.topics = .ok ["t"] ∧
      allPapers (retrieveStage oW7 ["t"]) = [pW7a] ++ pW7b :: [] ∧
      evalOne oW7 rtW7.user_query pW7b = none ∧
      ∃ ctx, arxiv_research_tool oW7 rtW7 = .ok ctx ∧
        ((ctx.papers.map Prod.snd).flatten).length = ([pW7a] ++ pW7b :: []).length - 1 ∧
        (∀ ep ∈ (ctx.papers.map Prod.snd).flatten, ep.paper ≠ pW7b) ∧
        (ctx.papers.map Prod.snd).flatten
          ~ ([pW7a] ++ []).filterMap (evalOne oW7 rtW7.user_query) :=
  ⟨rfl, by decide, rfl,
    c7_eval_failure_dropped oW7 rtW7 ["t"] rfl pW7b [pW7a] [] (by decide) rfl (by decide)⟩
